import Mathlib

/-!
# Verification of the audio-synth-visualizer signal pipeline

Shallow embedding, over `ℚ`, of the signal-conditioning core of the
repository:

* `FrequencyAnalyzer` (frequency-analysis utilities: dominant pitch,
  spectral centroid, band power, Hz→parameter mapping, cross-frame
  smoothing);
* the standalone band-energy helpers (`getAverageMagnitude`,
  `getBandEnergy`);
* `MultiBandAnalyzer` (band map, melody-band dominant-bin scaling,
  fallback band data, connection graph);
* `AudioNormalizer` (noise gate, pink-noise boost, temporal smoothing).

JavaScript `number` arithmetic is modelled by exact rationals.  Where the
code can produce a non-finite value (division by zero, reads of
out-of-bounds typed-array slots, which yield `undefined` and then `NaN`
when summed), a second, `Option ℚ`-valued layer is used: `none` stands
for a non-finite result (NaN or ±Infinity).  `Math.log` is abstracted as
a parameter `lg : ℚ → ℚ`; every call site first clamps its argument into
`[27.5, 4186]`, on which the real logarithm is finite, so a total
abstract function is faithful.
-/

/-- Linear interpolation, `a + (b - a) * t` (`FrequencyAnalyzer.lerp`,
`THREE.MathUtils.lerp`). -/
def lerpQ (a b t : ℚ) : ℚ := a + (b - a) * t

/-- Model of `Math.max(lo, Math.min(hi, x))`, the clamp idiom used throughout. -/
def clampQ (lo hi x : ℚ) : ℚ := max lo (min hi x)

/-- JS typed-array read `data[i]`: `some` value in bounds, `none`
(`undefined`, which becomes NaN in arithmetic) out of bounds, including
negative indices. -/
def jsRead (data : List ℚ) (i : ℤ) : Option ℚ :=
  if h : 0 ≤ i ∧ i < (data.length : ℤ) then
    some (data.get ⟨i.toNat, by omega⟩)
  else none

/-- Total typed-array read: the in-bounds value, `0` out of bounds. -/
def readQ (data : List ℚ) (i : ℤ) : ℚ :=
  if 0 ≤ i then data.getD i.toNat 0 else 0

/-- JS addition where either side may be NaN (`none`). -/
def addJ : Option ℚ → Option ℚ → Option ℚ
  | some a, some b => some (a + b)
  | _, _ => none

/-- JS division: `none` (non-finite: ±Infinity or NaN) when the divisor
is zero, otherwise the exact quotient. -/
def jsDiv (a b : ℚ) : Option ℚ :=
  if b = 0 then none else some (a / b)

/-- Index list walked by `FrequencyAnalyzer.getAverageMagnitude`'s loop
`for (let i = startBin; i <= endBin && i < data.length; i++)`: the
integers from `startBin` up to `min endBin (data.length - 1)`. -/
def binIdxs (data : List ℚ) (startBin endBin : ℤ) : List ℤ :=
  (List.range (min endBin ((data.length : ℤ) - 1) - startBin + 1).toNat).map
    (fun (k : ℕ) => startBin + (k : ℤ))

/-- Model of `FrequencyAnalyzer.getAverageMagnitude` (src/unnamed/part_003,
lines 245-256), NaN-aware layer: sums `data[i]` for
`startBin ≤ i ≤ endBin`, `i < data.length`, counts iterations, and
returns `count > 0 ? (sum / count) / maxValue : 0`.  A negative
`startBin` makes the loop read `data[i]` at a negative index
(`undefined`, hence NaN = `none`). -/
def getAverageMagnitudeJ (data : List ℚ) (maxValue : ℚ) (startBin endBin : ℤ) :
    Option ℚ :=
  let idxs := binIdxs data startBin endBin
  if idxs.length = 0 then some 0
  else
    (idxs.foldl (fun acc i => addJ acc (jsRead data i)) (some 0)).map
      (fun sum => sum / (idxs.length : ℚ) / maxValue)

/-- Model of `FrequencyAnalyzer.getAverageMagnitude`, total layer: agrees with
`getAverageMagnitudeJ` whenever `0 ≤ startBin` (the only calls the
analyzer makes), with out-of-bounds reads rendered as `0`. -/
def getAverageMagnitude (data : List ℚ) (maxValue : ℚ) (startBin endBin : ℤ) : ℚ :=
  let idxs := binIdxs data startBin endBin
  if idxs.length = 0 then 0
  else ((idxs.map (readQ data)).sum / (idxs.length : ℚ)) / maxValue

/-- Model of `getBandEnergy` (src/unnamed/part_013, lines 207-217), NaN-aware:
`start = ⌊band.min⌋`, `end = ⌊band.max⌋`; returns `0` when
`end ≤ start`, otherwise sums `data[i]` over `start ≤ i < end` guarded
by `i < data.length` (negative `i` passes that guard and reads
`undefined`, i.e. NaN) and returns `(sum / (end - start)) * amplitude`. -/
def getBandEnergyJ (data : List ℚ) (bandMin bandMax amplitude : ℚ) : Option ℚ :=
  let start : ℤ := ⌊bandMin⌋
  let stop : ℤ := ⌊bandMax⌋
  if stop ≤ start then some 0
  else
    let idxs := (List.range (stop - start).toNat).map (fun (k : ℕ) => start + (k : ℤ))
    let sum := idxs.foldl
      (fun acc i => if i < (data.length : ℤ) then addJ acc (jsRead data i) else acc)
      (some 0)
    sum.map (fun s => s / ((stop : ℚ) - (start : ℚ)) * amplitude)

/-- Model of `FrequencyMethod` (src/unnamed/part_003, lines 18-22). -/
inductive FrequencyMethod where
  | dominantPitch
  | spectralCentroid
  | bandPower
deriving DecidableEq

/-- Model of `FrequencyAnalysisConfig` (src/unnamed/part_003, lines 24-31). -/
structure FrequencyAnalysisConfig where
  method : FrequencyMethod
  baseFrequency : ℚ
  multiplier : ℚ
  minFreq : ℚ
  maxFreq : ℚ
  smoothing : ℚ
deriving DecidableEq

/-- Model of `FrequencyResult` (src/unnamed/part_003, lines 12-16). -/
structure FrequencyResult where
  freqA : ℚ
  freqB : ℚ
  complexity : ℚ
deriving DecidableEq

/-- The analyzer's smoothing state `prevFreqA` / `prevFreqB` /
`prevComplexity` (src/unnamed/part_003, lines 53-55). -/
structure AnalyzerState where
  prevFreqA : ℚ
  prevFreqB : ℚ
  prevComplexity : ℚ
deriving DecidableEq

/-- Constructor seeding of the smoothing state (src/unnamed/part_003,
lines 63-66): both frequencies start at `baseFrequency`, complexity at
`0`. -/
def initState (config : FrequencyAnalysisConfig) : AnalyzerState :=
  ⟨config.baseFrequency, config.baseFrequency, 0⟩

/-- Model of `FrequencyAnalyzer.mapFrequencyToParameter` (src/unnamed/part_003,
lines 262-277).  `lg` abstracts `Math.log`; its argument is always in
`[27.5, 4186]`.  Input `≤ 0` returns `baseFrequency` directly. -/
def mapFrequencyToParameter (lg : ℚ → ℚ) (config : FrequencyAnalysisConfig)
    (frequencyHz : ℚ) : ℚ :=
  if frequencyHz ≤ 0 then config.baseFrequency
  else
    let clampedHz := max (55 / 2) (min 4186 frequencyHz)
    let normalized := (lg clampedHz - lg (55 / 2)) / (lg 4186 - lg (55 / 2))
    clampQ config.minFreq config.maxFreq
      (config.minFreq + normalized * (config.maxFreq - config.minFreq))

/-- NaN-aware `mapFrequencyToParameter`: the only division is by the
constant `Math.log(4186) - Math.log(27.5)`. -/
def mapFrequencyToParameterJ (lg : ℚ → ℚ) (config : FrequencyAnalysisConfig)
    (frequencyHz : ℚ) : Option ℚ :=
  if frequencyHz ≤ 0 then some config.baseFrequency
  else
    let clampedHz := max (55 / 2) (min 4186 frequencyHz)
    (jsDiv (lg clampedHz - lg (55 / 2)) (lg 4186 - lg (55 / 2))).map
      (fun normalized =>
        clampQ config.minFreq config.maxFreq
          (config.minFreq + normalized * (config.maxFreq - config.minFreq)))

/-- Running accumulator of the top-2 scan in
`FrequencyAnalyzer.analyzeDominantPitch` (src/unnamed/part_003,
lines 106-109): `(max1, max1Index, max2, max2Index)`, all seeded `-1`. -/
structure Top2 where
  max1 : ℚ
  max1Index : ℤ
  max2 : ℚ
  max2Index : ℤ
deriving DecidableEq

/-- One iteration of the top-2 loop (src/unnamed/part_003, lines 114-126). -/
def top2Step (data : List ℚ) (st : Top2) (i : ℕ) : Top2 :=
  let val := data.getD i 0
  if st.max1 < val then ⟨val, i, st.max1, st.max1Index⟩
  else if st.max2 < val then ⟨st.max1, st.max1Index, val, i⟩
  else st

/-- Top-2 scan over bins `1 ≤ i < min(data.length, 256)` (skips the DC
bin 0). -/
def top2Scan (data : List ℚ) : Top2 :=
  ((List.range (min data.length 256)).drop 1).foldl (top2Step data)
    ⟨-1, -1, -1, -1⟩

/-- Model of `FrequencyAnalyzer.analyzeDominantPitch` (src/unnamed/part_003,
lines 105-142), total layer.  `freqResolution = sampleRate / fftSize`;
`maxValue` is `255` for byte spectra, `1` for float spectra. -/
def analyzeDominantPitch (lg : ℚ → ℚ) (config : FrequencyAnalysisConfig)
    (freqResolution maxValue : ℚ) (data : List ℚ) : FrequencyResult :=
  let t := top2Scan data
  { freqA := mapFrequencyToParameter lg config ((t.max1Index : ℚ) * freqResolution)
    freqB := mapFrequencyToParameter lg config ((t.max2Index : ℚ) * freqResolution)
    complexity := max t.max1 t.max2 / maxValue }

/-- Model of `FrequencyAnalyzer.analyzeDominantPitch`, NaN-aware layer. -/
def analyzeDominantPitchJ (lg : ℚ → ℚ) (config : FrequencyAnalysisConfig)
    (freqResolution maxValue : ℚ) (data : List ℚ) : Option FrequencyResult := do
  let t := top2Scan data
  let fA ← mapFrequencyToParameterJ lg config ((t.max1Index : ℚ) * freqResolution)
  let fB ← mapFrequencyToParameterJ lg config ((t.max2Index : ℚ) * freqResolution)
  let c ← jsDiv (max t.max1 t.max2) maxValue
  some ⟨fA, fB, c⟩

/-- Sum of `i * freqResolution * data[i]` over a list of bin indices. -/
def weightedSum (data : List ℚ) (freqResolution : ℚ) (idxs : List ℕ) : ℚ :=
  (idxs.map (fun (i : ℕ) => (i : ℚ) * freqResolution * data.getD i 0)).sum

/-- Sum of `data[i]` over a list of bin indices. -/
def magnitudeSum (data : List ℚ) (idxs : List ℕ) : ℚ :=
  (idxs.map (fun i => data.getD i 0)).sum

/-- Model of `FrequencyAnalyzer.analyzeSpectralCentroid` (src/unnamed/part_003,
lines 148-188), total layer.  A zero total magnitude degrades the
centroid to `0`; a zero upper-half total degrades the high centroid to
the full centroid. -/
def analyzeSpectralCentroid (lg : ℚ → ℚ) (config : FrequencyAnalysisConfig)
    (freqResolution maxValue : ℚ) (data : List ℚ) : FrequencyResult :=
  let idxs := (List.range data.length).drop 1
  let totalMagnitude := magnitudeSum data idxs
  let centroidHz :=
    if 0 < totalMagnitude then weightedSum data freqResolution idxs / totalMagnitude
    else 0
  let midPoint := data.length / 2
  let hidxs := (List.range data.length).drop midPoint
  let totalMagnitudeHigh := magnitudeSum data hidxs
  let centroidHighHz :=
    if 0 < totalMagnitudeHigh then
      weightedSum data freqResolution hidxs / totalMagnitudeHigh
    else centroidHz
  { freqA := mapFrequencyToParameter lg config centroidHz
    freqB := mapFrequencyToParameter lg config centroidHighHz
    complexity := totalMagnitude / (data.length : ℚ) / maxValue }

/-- Model of `FrequencyAnalyzer.analyzeSpectralCentroid`, NaN-aware layer: the
`avgMagnitude = totalMagnitude / frequencyData.length` division is
unguarded in the code and is NaN on a zero-length spectrum. -/
def analyzeSpectralCentroidJ (lg : ℚ → ℚ) (config : FrequencyAnalysisConfig)
    (freqResolution maxValue : ℚ) (data : List ℚ) : Option FrequencyResult := do
  let idxs := (List.range data.length).drop 1
  let totalMagnitude := magnitudeSum data idxs
  let centroidHz ←
    if 0 < totalMagnitude then jsDiv (weightedSum data freqResolution idxs) totalMagnitude
    else some 0
  let midPoint := data.length / 2
  let hidxs := (List.range data.length).drop midPoint
  let totalMagnitudeHigh := magnitudeSum data hidxs
  let centroidHighHz ←
    if 0 < totalMagnitudeHigh then
      jsDiv (weightedSum data freqResolution hidxs) totalMagnitudeHigh
    else some centroidHz
  let fA ← mapFrequencyToParameterJ lg config centroidHz
  let fB ← mapFrequencyToParameterJ lg config centroidHighHz
  let avgMagnitude ← jsDiv totalMagnitude (data.length : ℚ)
  let c ← jsDiv avgMagnitude maxValue
  some ⟨fA, fB, c⟩

/-- Model of `FrequencyAnalyzer.analyzeBandPower` (src/unnamed/part_003,
lines 195-240), total layer.  Band edges in Hz are 0/150/2000/8000,
converted to bins by `Math.floor(hz / freqResolution)`; the treble
upper bin is additionally clamped to `data.length - 1`. -/
def analyzeBandPower (config : FrequencyAnalysisConfig)
    (freqResolution maxValue : ℚ) (data : List ℚ) : FrequencyResult :=
  let bassMin : ℤ := ⌊(0 : ℚ) / freqResolution⌋
  let bassMax : ℤ := ⌊(150 : ℚ) / freqResolution⌋
  let midMin : ℤ := ⌊(150 : ℚ) / freqResolution⌋
  let midMax : ℤ := ⌊(2000 : ℚ) / freqResolution⌋
  let trebleMin : ℤ := ⌊(2000 : ℚ) / freqResolution⌋
  let trebleMax : ℤ := min ⌊(8000 : ℚ) / freqResolution⌋ ((data.length : ℤ) - 1)
  let bassLevel := getAverageMagnitude data maxValue bassMin bassMax
  let midLevel := getAverageMagnitude data maxValue midMin midMax
  let trebleLevel := getAverageMagnitude data maxValue trebleMin trebleMax
  { freqA := clampQ config.minFreq config.maxFreq
      (config.baseFrequency + (bassLevel * 0.6 + midLevel * 0.4) * config.multiplier)
    freqB := clampQ config.minFreq config.maxFreq
      (config.baseFrequency + (midLevel * 0.4 + trebleLevel * 0.6) * config.multiplier)
    complexity := (bassLevel + midLevel + trebleLevel) / 3 }

/-- Model of `FrequencyAnalyzer.analyzeBandPower`, NaN-aware layer: the bin-edge
divisions `hz / freqResolution` are NaN/Infinity when
`freqResolution = 0`, and the magnitude averages propagate NaN from
out-of-bounds reads. -/
def analyzeBandPowerJ (config : FrequencyAnalysisConfig)
    (freqResolution maxValue : ℚ) (data : List ℚ) : Option FrequencyResult := do
  let bassMinQ ← jsDiv 0 freqResolution
  let bassMaxQ ← jsDiv 150 freqResolution
  let midMaxQ ← jsDiv 2000 freqResolution
  let trebleMaxQ ← jsDiv 8000 freqResolution
  let bassLevel ← getAverageMagnitudeJ data maxValue ⌊bassMinQ⌋ ⌊bassMaxQ⌋
  let midLevel ← getAverageMagnitudeJ data maxValue ⌊bassMaxQ⌋ ⌊midMaxQ⌋
  let trebleLevel ← getAverageMagnitudeJ data maxValue ⌊midMaxQ⌋
    (min ⌊trebleMaxQ⌋ ((data.length : ℤ) - 1))
  some
    { freqA := clampQ config.minFreq config.maxFreq
        (config.baseFrequency + (bassLevel * 0.6 + midLevel * 0.4) * config.multiplier)
      freqB := clampQ config.minFreq config.maxFreq
        (config.baseFrequency + (midLevel * 0.4 + trebleLevel * 0.6) * config.multiplier)
      complexity := (bassLevel + midLevel + trebleLevel) / 3 }

/-- Strategy dispatch of `FrequencyAnalyzer.analyze`
(src/unnamed/part_003, lines 75-86), total layer. -/
def dispatchMethod (lg : ℚ → ℚ) (config : FrequencyAnalysisConfig)
    (freqResolution maxValue : ℚ) (data : List ℚ) : FrequencyResult :=
  match config.method with
  | .dominantPitch => analyzeDominantPitch lg config freqResolution maxValue data
  | .spectralCentroid => analyzeSpectralCentroid lg config freqResolution maxValue data
  | .bandPower => analyzeBandPower config freqResolution maxValue data

/-- Strategy dispatch, NaN-aware layer. -/
def dispatchMethodJ (lg : ℚ → ℚ) (config : FrequencyAnalysisConfig)
    (freqResolution maxValue : ℚ) (data : List ℚ) : Option FrequencyResult :=
  match config.method with
  | .dominantPitch => analyzeDominantPitchJ lg config freqResolution maxValue data
  | .spectralCentroid => analyzeSpectralCentroidJ lg config freqResolution maxValue data
  | .bandPower => analyzeBandPowerJ config freqResolution maxValue data

/-- Model of `FrequencyAnalyzer.analyze` (src/unnamed/part_003, lines 72-99),
total layer: dispatches to the configured strategy, then lerps each
field against the stored previous values with factor
`config.smoothing`, and stores the smoothed result as the new previous
state. -/
def analyze (lg : ℚ → ℚ) (config : FrequencyAnalysisConfig)
    (freqResolution maxValue : ℚ) (st : AnalyzerState) (data : List ℚ) :
    FrequencyResult × AnalyzerState :=
  let r := dispatchMethod lg config freqResolution maxValue data
  let fA := lerpQ st.prevFreqA r.freqA config.smoothing
  let fB := lerpQ st.prevFreqB r.freqB config.smoothing
  let c := lerpQ st.prevComplexity r.complexity config.smoothing
  (⟨fA, fB, c⟩, ⟨fA, fB, c⟩)

/-- Model of `FrequencyAnalyzer.analyze`, NaN-aware layer. -/
def analyzeJ (lg : ℚ → ℚ) (config : FrequencyAnalysisConfig)
    (freqResolution maxValue : ℚ) (st : AnalyzerState) (data : List ℚ) :
    Option (FrequencyResult × AnalyzerState) := do
  let r ← dispatchMethodJ lg config freqResolution maxValue data
  let fA := lerpQ st.prevFreqA r.freqA config.smoothing
  let fB := lerpQ st.prevFreqB r.freqB config.smoothing
  let c := lerpQ st.prevComplexity r.complexity config.smoothing
  some (⟨fA, fB, c⟩, ⟨fA, fB, c⟩)

/-- A whole call sequence of `analyze` (one spectrum per frame), total
layer: the per-frame results and the final smoothing state. -/
def runAnalyzer (lg : ℚ → ℚ) (config : FrequencyAnalysisConfig)
    (freqResolution maxValue : ℚ) :
    AnalyzerState → List (List ℚ) → List FrequencyResult × AnalyzerState
  | st, [] => ([], st)
  | st, data :: frames =>
      let (r, st') := analyze lg config freqResolution maxValue st data
      let (rs, stF) := runAnalyzer lg config freqResolution maxValue st' frames
      (r :: rs, stF)

/-- A whole call sequence of `analyze`, NaN-aware layer: `none` as soon
as any frame produces a non-finite number. -/
def runAnalyzerJ (lg : ℚ → ℚ) (config : FrequencyAnalysisConfig)
    (freqResolution maxValue : ℚ) :
    AnalyzerState → List (List ℚ) → Option (List FrequencyResult × AnalyzerState)
  | st, [] => some ([], st)
  | st, data :: frames =>
      (analyzeJ lg config freqResolution maxValue st data).bind (fun p =>
        (runAnalyzerJ lg config freqResolution maxValue p.2 frames).map
          (fun q => (p.1 :: q.1, q.2)))

/-- Modelled from the spec (§4.4 / claim C3 reference): mean normalized
magnitude over the clamped valid intersection of the inclusive bin
range `[startBin, endBin]` with the array, `0` if that intersection is
empty. -/
def bandAverageSpec (data : List ℚ) (maxValue : ℚ) (startBin endBin : ℤ) : ℚ :=
  let lo := max startBin 0
  let hi := min endBin ((data.length : ℤ) - 1)
  if hi < lo then 0
  else
    (((List.range (hi - lo + 1).toNat).map (fun (k : ℕ) => readQ data (lo + (k : ℤ)))).sum
        / ((hi : ℚ) - (lo : ℚ) + 1)) / maxValue

/-- Modelled from the spec (§4.3 strategy 3 / claim C3 reference): the
band-power strategy's unsmoothed result — bass/mid/treble are the
average normalized magnitudes over the bin ranges obtained from the Hz
ranges `<150`, `150–2000`, `2000–8000` (treble clamped to the array
bounds) via `⌊hz / freqResolution⌋`;
`freqA = clamp(base + (0.6*bass + 0.4*mid) * multiplier)`,
`freqB = clamp(base + (0.4*mid + 0.6*treble) * multiplier)`,
`complexity = (bass + mid + treble) / 3`. -/
def bandPowerSpec (config : FrequencyAnalysisConfig)
    (freqResolution maxValue : ℚ) (data : List ℚ) : FrequencyResult :=
  let bass := bandAverageSpec data maxValue 0 ⌊(150 : ℚ) / freqResolution⌋
  let mid := bandAverageSpec data maxValue ⌊(150 : ℚ) / freqResolution⌋
    ⌊(2000 : ℚ) / freqResolution⌋
  let treble := bandAverageSpec data maxValue ⌊(2000 : ℚ) / freqResolution⌋
    (min ⌊(8000 : ℚ) / freqResolution⌋ ((data.length : ℤ) - 1))
  { freqA := clampQ config.minFreq config.maxFreq
      (config.baseFrequency + (0.6 * bass + 0.4 * mid) * config.multiplier)
    freqB := clampQ config.minFreq config.maxFreq
      (config.baseFrequency + (0.4 * mid + 0.6 * treble) * config.multiplier)
    complexity := (bass + mid + treble) / 3 }

/-- The `AudioNormalizer` noise gate (src/unnamed/part_002): values
below the threshold `0.15` get a quadratic falloff
`v * (v / 0.15)`. -/
def noiseGate (v : ℚ) : ℚ :=
  if v < 0.15 then v * (v / 0.15) else v

/-- The per-bin target of `AudioNormalizer.update`: byte value
normalized to `[0,1]`, noise-gated, then boosted by
`1 + (i / totalBins) * 2.0` (pink-noise compensation,
`boostStrength = 2.0`). -/
def normTarget (totalBins i b : ℕ) : ℚ :=
  noiseGate ((b : ℚ) / 255) * (1 + ((i : ℚ) / (totalBins : ℚ)) * 2)

/-- Model of `AudioNormalizer.update` (src/unnamed/part_002, lines 399-427):
bin `i < min(rawData.length, size)` becomes
`lerp(previous[i], target, smoothing)`; other bins keep their previous
value.  `size = normalizedData.length` stays fixed. -/
def normalizerUpdate (smoothing : ℚ) (rawData : List ℕ) (data : List ℚ) : List ℚ :=
  (List.range data.length).map (fun i =>
    if i < rawData.length then
      lerpQ (data.getD i 0) (normTarget data.length i (rawData.getD i 0)) smoothing
    else data.getD i 0)

/-- The five keys installed in `MultiBandAnalyzer.analyzers` /
`MultiBandAnalyzer.buffers` at construction (src/unnamed/part_005). -/
def knownBands : List String := ["full", "bass", "mids", "highs", "melody"]

/-- Model of `BandData` (src/unnamed/part_005, lines 48-52). -/
structure BandData where
  left : List ℚ
  right : List ℚ
  energy : ℚ
deriving DecidableEq

/-- Insert into a descending-sorted list (model of the comparator
`(a, b) => b - a`). -/
def insertDesc (x : ℕ) : List ℕ → List ℕ
  | [] => [x]
  | y :: ys => if y ≤ x then x :: y :: ys else y :: insertDesc x ys

/-- Model of `Array.from(frequencyData).sort((a, b) => b - a)`: descending sort. -/
def sortDesc : List ℕ → List ℕ
  | [] => []
  | x :: xs => insertDesc x (sortDesc xs)

/-- Model of `MultiBandAnalyzer.findFrequencyThreshold` (src/unnamed/part_005,
lines 308-315): sort descending, take the value at rank
`⌊length * (1 - percentile)⌋`, with `sorted[index] || 0` yielding `0`
when the rank is out of range (empty spectrum). -/
def findFrequencyThreshold (frequencyData : List ℕ) (percentile : ℚ) : ℕ :=
  let sorted := sortDesc frequencyData
  let index := (⌊(frequencyData.length : ℚ) * (1 - percentile)⌋).toNat
  sorted.getD index 0

/-- The melody band's dominant-bin scaling factor
(`MultiBandAnalyzer.processMelodyBand`, src/unnamed/part_005,
lines 271-303): `0.5 + 1.5 *` (mean normalized magnitude of the bins
at or above the 70th-percentile threshold); the effective factor is `1`
when no bin meets the threshold (the buffers are left untouched). -/
def melodyScale (frequencyData : List ℕ) : ℚ :=
  let threshold := findFrequencyThreshold frequencyData 0.7
  let dominant := frequencyData.filter (fun v => threshold ≤ v)
  if 0 < dominant.length then
    0.5 + ((dominant.map (fun (v : ℕ) => (v : ℚ) / 255)).sum / (dominant.length : ℚ)) * 1.5
  else 1

/-- Model of `MultiBandAnalyzer.processMelodyBand` (src/unnamed/part_005,
lines 271-303): when at least one bin reaches the dominant threshold,
every sample of both time-domain buffers is multiplied by the scale;
otherwise the buffers are returned unscaled. -/
def processMelody (frequencyData : List ℕ) (left right : List ℚ) :
    List ℚ × List ℚ :=
  let threshold := findFrequencyThreshold frequencyData 0.7
  let dominant := frequencyData.filter (fun v => threshold ≤ v)
  if 0 < dominant.length then
    let scale :=
      0.5 + ((dominant.map (fun (v : ℕ) => (v : ℚ) / 255)).sum / (dominant.length : ℚ)) * 1.5
    (left.map (fun x => x * scale), right.map (fun x => x * scale))
  else (left, right)

/-- Model of `MultiBandAnalyzer.calculateEnergy` (src/unnamed/part_005,
lines 320-329): RMS over the stereo pair; `Math.sqrt` is abstracted as
`sq`. -/
def calculateEnergy (sq : ℚ → ℚ) (left right : List ℚ) : ℚ :=
  let len := min left.length right.length
  sq ((((List.range len).map (fun i =>
      left.getD i 0 * left.getD i 0 + right.getD i 0 * right.getD i 0)).sum) /
    ((len : ℚ) * 2))

/-- Environment of a `MultiBandAnalyzer`: the FFT size chosen at
construction and the current per-band audio the `AnalyserNode`s would
deliver (`getFloatTimeDomainData` fills a `Float32Array(fftSize)`;
`getByteFrequencyData` fills a `Uint8Array(fftSize / 2)`). -/
structure MBAEnv where
  fftSize : ℕ
  sampleL : String → ℕ → ℚ
  sampleR : String → ℕ → ℚ
  freqByte : ℕ → ℕ

/-- The left time-domain buffer a band's analyzer fills: length exactly
`fftSize`. -/
def timeDomainL (env : MBAEnv) (band : String) : List ℚ :=
  (List.range env.fftSize).map (env.sampleL band)

/-- The right time-domain buffer a band's analyzer fills. -/
def timeDomainR (env : MBAEnv) (band : String) : List ℚ :=
  (List.range env.fftSize).map (env.sampleR band)

/-- The byte magnitude spectrum used by the melody band
(`this.frequencyData`, allocated as `Uint8Array(fftSize / 2)`). -/
def melodySpectrum (env : MBAEnv) : List ℕ :=
  (List.range (env.fftSize / 2)).map env.freqByte

/-- Model of `MultiBandAnalyzer.getBandData` (src/unnamed/part_005,
lines 232-260): a known band yields its stereo buffers (melody-scaled
for `"melody"`) and RMS energy; an unknown band name yields the
fallback `BandData` with two fresh `Float32Array(2048)` zero buffers
and energy `0`, and never throws. -/
def getBandData (sq : ℚ → ℚ) (env : MBAEnv) (band : String) : BandData :=
  if band ∈ knownBands then
    let l0 := timeDomainL env band
    let r0 := timeDomainR env band
    let lr := if band = "melody" then processMelody (melodySpectrum env) l0 r0
      else (l0, r0)
    ⟨lr.1, lr.2, calculateEnergy sq lr.1 lr.2⟩
  else ⟨List.replicate 2048 0, List.replicate 2048 0, 0⟩

/-- Nodes of the Web Audio routing graph built by
`MultiBandAnalyzer.connect` (src/unnamed/part_005, lines 188-224):
the splitter, the merger, the six band filters, one analyzer per band
and channel, and external nodes (sources / destinations). -/
inductive WNode where
  | ext : ℕ → WNode
  | splitter : WNode
  | merger : WNode
  | bassFilterL : WNode
  | bassFilterR : WNode
  | midsFilterL : WNode
  | midsFilterR : WNode
  | highsFilterL : WNode
  | highsFilterR : WNode
  | analyzerL : String → WNode
  | analyzerR : String → WNode
deriving DecidableEq

/-- A Web Audio connection `src.connect(dst, output, input)`.  The Web
Audio specification keeps at most one connection per
`(src, dst, output, input)` quadruple: repeated `connect` calls with
the same termini are ignored, which is why the graph is a set of
edges. -/
structure WEdge where
  src : WNode
  dst : WNode
  output : ℕ
  input : ℕ
deriving DecidableEq

/-- The audio-graph part of a `MultiBandAnalyzer`: the connections made
so far and the `this.source` field (assigned by `connect`, never read
back by the class). -/
structure GraphState where
  edges : Finset WEdge
  source : Option WNode
deriving DecidableEq

/-- The twenty connections `MultiBandAnalyzer.connect` wires
(src/unnamed/part_005, lines 188-224), in program order. -/
def connectEdges (source destination : WNode) : List WEdge :=
  [⟨source, .splitter, 0, 0⟩,
   ⟨.splitter, .analyzerL "full", 0, 0⟩,
   ⟨.splitter, .analyzerR "full", 1, 0⟩,
   ⟨.splitter, .bassFilterL, 0, 0⟩,
   ⟨.splitter, .bassFilterR, 1, 0⟩,
   ⟨.bassFilterL, .analyzerL "bass", 0, 0⟩,
   ⟨.bassFilterR, .analyzerR "bass", 0, 0⟩,
   ⟨.splitter, .midsFilterL, 0, 0⟩,
   ⟨.splitter, .midsFilterR, 1, 0⟩,
   ⟨.midsFilterL, .analyzerL "mids", 0, 0⟩,
   ⟨.midsFilterR, .analyzerR "mids", 0, 0⟩,
   ⟨.splitter, .highsFilterL, 0, 0⟩,
   ⟨.splitter, .highsFilterR, 1, 0⟩,
   ⟨.highsFilterL, .analyzerL "highs", 0, 0⟩,
   ⟨.highsFilterR, .analyzerR "highs", 0, 0⟩,
   ⟨.splitter, .analyzerL "melody", 0, 0⟩,
   ⟨.splitter, .analyzerR "melody", 1, 0⟩,
   ⟨.splitter, .merger, 0, 0⟩,
   ⟨.splitter, .merger, 1, 1⟩,
   ⟨.merger, destination, 0, 0⟩]

/-- Model of `MultiBandAnalyzer.connect(source, destination)`
(src/unnamed/part_005, lines 188-224): stores `source` into
`this.source` (without comparing it to the previous value — the field
is never read) and then unconditionally issues every `connect` call of
the wiring; the graph keeps each connection at most once. -/
def connect (st : GraphState) (source destination : WNode) : GraphState :=
  { edges := st.edges ∪ (connectEdges source destination).toFinset
    source := some source }

theorem length_insertDesc (x : ℕ) (l : List ℕ) :
    (insertDesc x l).length = l.length + 1 := by
  induction l with
  | nil => rfl
  | cons y ys ih =>
      unfold insertDesc
      split
      · rfl
      · simp [List.length_cons, ih]

theorem length_sortDesc (l : List ℕ) : (sortDesc l).length = l.length := by
  induction l with
  | nil => rfl
  | cons x xs ih => simp [sortDesc, length_insertDesc, ih]

theorem mem_insertDesc {a x : ℕ} {l : List ℕ} :
    a ∈ insertDesc x l ↔ a = x ∨ a ∈ l := by
  induction l with
  | nil => simp [insertDesc]
  | cons y ys ih =>
      unfold insertDesc
      split
      · simp
      · simp only [List.mem_cons, ih]
        tauto

theorem mem_sortDesc {a : ℕ} {l : List ℕ} : a ∈ sortDesc l ↔ a ∈ l := by
  induction l with
  | nil => simp [sortDesc]
  | cons x xs ih => simp [sortDesc, mem_insertDesc, ih]

theorem sortDesc_replicate_zero (n : ℕ) :
    sortDesc (List.replicate n 0) = List.replicate n 0 := by
  induction n with
  | zero => rfl
  | succ k ih =>
      have : insertDesc 0 (List.replicate k 0) = List.replicate (k + 1) 0 := by
        cases k with
        | zero => rfl
        | succ m => simp [List.replicate_succ, insertDesc]
      simp [List.replicate_succ, sortDesc, ih, this]

/-- C6: for every byte magnitude spectrum (all bins `≤ 255`), the Melody
band's dominant-bin scaling factor — `0.5 + 1.5 *` the mean normalized
(`÷ 255`) magnitude of the bins at or above the 70th-percentile
threshold of the descending-sorted spectrum — always lies within
`[0.5, 2.0]`. -/
theorem melodyScale_bounds (data : List ℕ) (hb : ∀ v ∈ data, v ≤ 255) :
    1 / 2 ≤ melodyScale data ∧ melodyScale data ≤ 2 := by
  simp only [melodyScale]
  set dominant := data.filter
    (fun v => decide (findFrequencyThreshold data 0.7 ≤ v)) with hdom
  split
  · next hlen =>
      set m := (dominant.map (fun (v : ℕ) => (v : ℚ) / 255)).sum with hm
      have hlenQ : (0 : ℚ) < (dominant.length : ℚ) := by exact_mod_cast hlen
      have hm0 : 0 ≤ m := by
        apply List.sum_nonneg
        intro x hx
        simp only [List.mem_map] at hx
        obtain ⟨v, _, rfl⟩ := hx
        positivity
      have hm1 : m ≤ (dominant.length : ℚ) := by
        have := List.sum_le_card_nsmul (dominant.map (fun (v : ℕ) => (v : ℚ) / 255)) 1 ?_
        · simpa using this
        · intro x hx
          simp only [List.mem_map] at hx
          obtain ⟨v, hv, rfl⟩ := hx
          have hv255 : v ≤ 255 := hb v (List.mem_of_mem_filter hv)
          rw [div_le_one (by norm_num)]
          exact_mod_cast hv255
      have hmean0 : 0 ≤ m / (dominant.length : ℚ) := by positivity
      have hmean1 : m / (dominant.length : ℚ) ≤ 1 := by
        rw [div_le_one hlenQ]; exact hm1
      constructor <;> nlinarith
  · norm_num

/-- Witness for C6 at the concrete byte spectrum `[0, 10, 255, 200]`. -/
theorem melodyScale_bounds_witness :
    1 / 2 ≤ melodyScale [0, 10, 255, 200] ∧ melodyScale [0, 10, 255, 200] ≤ 2 :=
  melodyScale_bounds [0, 10, 255, 200] (by decide)

/-- C7: requesting a band name that is not one of the five known bands
makes `getBandData` return the fallback `BandData` — both buffers are
all-zero (`Float32Array(2048)`) and the energy is `0`; being a total
function of the model state, it neither throws nor propagates any
error. -/
theorem getBandData_unknown_fallback (sq : ℚ → ℚ) (env : MBAEnv) (band : String)
    (h : band ∉ knownBands) :
    getBandData sq env band = ⟨List.replicate 2048 0, List.replicate 2048 0, 0⟩ ∧
    (∀ x ∈ (getBandData sq env band).left, x = 0) ∧
    (∀ x ∈ (getBandData sq env band).right, x = 0) ∧
    (getBandData sq env band).energy = 0 := by
  have hgd : getBandData sq env band =
      ⟨List.replicate 2048 0, List.replicate 2048 0, 0⟩ := by
    unfold getBandData
    rw [if_neg h]
  refine ⟨hgd, ?_, ?_, by rw [hgd]⟩ <;> rw [hgd] <;>
    exact fun x hx => List.eq_of_mem_replicate hx

/-- Witness for C7 at the unknown band name `"vocals"`. -/
theorem getBandData_unknown_fallback_witness :
    getBandData (fun q => q) ⟨4, fun _ _ => 1, fun _ _ => 1, fun _ => 0⟩ "vocals" =
      ⟨List.replicate 2048 0, List.replicate 2048 0, 0⟩ ∧
    (∀ x ∈ (getBandData (fun q => q) ⟨4, fun _ _ => 1, fun _ _ => 1, fun _ => 0⟩
        "vocals").left, x = 0) ∧
    (∀ x ∈ (getBandData (fun q => q) ⟨4, fun _ _ => 1, fun _ _ => 1, fun _ => 0⟩
        "vocals").right, x = 0) ∧
    (getBandData (fun q => q) ⟨4, fun _ _ => 1, fun _ _ => 1, fun _ => 0⟩
        "vocals").energy = 0 :=
  getBandData_unknown_fallback (fun q => q)
    ⟨4, fun _ _ => 1, fun _ _ => 1, fun _ => 0⟩ "vocals" (by decide)

theorem processMelody_length_left (freq : List ℕ) (left right : List ℚ) :
    (processMelody freq left right).1.length = left.length := by
  simp only [processMelody]
  split <;> simp

theorem processMelody_length_right (freq : List ℕ) (left right : List ℚ) :
    (processMelody freq left right).2.length = right.length := by
  simp only [processMelody]
  split <;> simp

theorem getBandData_known_lengths (sq : ℚ → ℚ) (env : MBAEnv) (band : String)
    (hk : band ∈ knownBands) :
    (getBandData sq env band).left.length = env.fftSize ∧
    (getBandData sq env band).right.length = env.fftSize := by
  simp only [getBandData, hk, if_true]
  split
  · simp [processMelody_length_left, processMelody_length_right,
      timeDomainL, timeDomainR]
  · simp [timeDomainL, timeDomainR]

/-- C9: on every known band, `getBandData` returns left/right buffers of
length exactly the construction-time `fftSize`, while the fallback for
an unrecognized band always has buffers of the fixed length `2048`;
hence whenever `fftSize ≠ 2048` the fallback's buffer length differs
from the length every valid band returns. -/
theorem getBandData_buffer_lengths (sq : ℚ → ℚ) (env : MBAEnv)
    (known unknown : String) (hk : known ∈ knownBands) (hu : unknown ∉ knownBands) :
    (getBandData sq env known).left.length = env.fftSize ∧
    (getBandData sq env known).right.length = env.fftSize ∧
    (getBandData sq env unknown).left.length = 2048 ∧
    (getBandData sq env unknown).right.length = 2048 ∧
    (env.fftSize ≠ 2048 →
      (getBandData sq env known).left.length ≠
        (getBandData sq env unknown).left.length) := by
  have hK := getBandData_known_lengths sq env known hk
  have hL : (getBandData sq env unknown).left = List.replicate 2048 0 := by
    unfold getBandData
    rw [if_neg hu]
  have hR : (getBandData sq env unknown).right = List.replicate 2048 0 := by
    unfold getBandData
    rw [if_neg hu]
  refine ⟨hK.1, hK.2, ?_, ?_, fun hne => ?_⟩
  · rw [hL, List.length_replicate]
  · rw [hR, List.length_replicate]
  · rw [hK.1, hL, List.length_replicate]
    exact hne

/-- Witness for C9 at `fftSize = 4`, band `"bass"`, unknown `"vocals"`. -/
theorem getBandData_buffer_lengths_witness :
    (getBandData (fun q => q) ⟨4, fun _ _ => 1, fun _ _ => 1, fun _ => 0⟩
        "bass").left.length = 4 ∧
    (getBandData (fun q => q) ⟨4, fun _ _ => 1, fun _ _ => 1, fun _ => 0⟩
        "bass").right.length = 4 ∧
    (getBandData (fun q => q) ⟨4, fun _ _ => 1, fun _ _ => 1, fun _ => 0⟩
        "vocals").left.length = 2048 ∧
    (getBandData (fun q => q) ⟨4, fun _ _ => 1, fun _ _ => 1, fun _ => 0⟩
        "vocals").right.length = 2048 ∧
    ((4 : ℕ) ≠ 2048 →
      (getBandData (fun q => q) ⟨4, fun _ _ => 1, fun _ _ => 1, fun _ => 0⟩
          "bass").left.length ≠
        (getBandData (fun q => q) ⟨4, fun _ _ => 1, fun _ _ => 1, fun _ => 0⟩
          "vocals").left.length) :=
  getBandData_buffer_lengths (fun q => q)
    ⟨4, fun _ _ => 1, fun _ _ => 1, fun _ => 0⟩ "bass" "vocals"
    (by decide) (by decide)

theorem getD_replicate_zero (n i : ℕ) : (List.replicate n (0 : ℕ)).getD i 0 = 0 := by
  rcases lt_or_le i n with h | h
  · rw [List.getD_eq_get _ _ (by simpa using h), List.get_replicate]
  · rw [List.getD_eq_default _ _ (by simpa using h)]

theorem findFrequencyThreshold_replicate_zero (n : ℕ) :
    findFrequencyThreshold (List.replicate n 0) 0.7 = 0 := by
  simp only [findFrequencyThreshold, sortDesc_replicate_zero]
  exact getD_replicate_zero n _

theorem findFrequencyThreshold_mem (data : List ℕ) (hne : data ≠ []) :
    findFrequencyThreshold data 0.7 ∈ data := by
  simp only [findFrequencyThreshold]
  have hlen : 0 < data.length := List.length_pos.mpr hne
  have hidx : (⌊(data.length : ℚ) * (1 - 0.7)⌋).toNat < (sortDesc data).length := by
    rw [length_sortDesc]
    have hfl : ⌊(data.length : ℚ) * (1 - 0.7)⌋ < (data.length : ℤ) := by
      rw [Int.floor_lt]
      push_cast
      nlinarith [hlen, (by exact_mod_cast hlen : (0 : ℚ) < (data.length : ℚ))]
    omega
  rw [List.getD_eq_get _ _ hidx]
  exact mem_sortDesc.mp (List.get_mem _ _ _)

/-- C10: on an all-zero byte spectrum (silence), the Melody band's
dominant-bin threshold is `0`, every bin counts as dominant, the mean
normalized magnitude is `0` and the scaling factor is exactly `0.5`, so
`processMelody` multiplies every time-domain sample by exactly `1/2`
instead of leaving the buffers unscaled; and the unscaled (factor-1)
path is taken only when no bin meets the threshold, which cannot happen
for a non-empty spectrum. -/
theorem melody_silence_scaling (n : ℕ) (hn : 1 ≤ n) (left right : List ℚ) :
    findFrequencyThreshold (List.replicate n 0) 0.7 = 0 ∧
    (List.replicate n (0 : ℕ)).filter
      (fun v => findFrequencyThreshold (List.replicate n 0) 0.7 ≤ v) =
      List.replicate n 0 ∧
    melodyScale (List.replicate n 0) = 1 / 2 ∧
    processMelody (List.replicate n 0) left right =
      (left.map (fun x => x * (1 / 2)), right.map (fun x => x * (1 / 2))) ∧
    (∀ data : List ℕ, data ≠ [] →
      0 < (data.filter (fun v => findFrequencyThreshold data 0.7 ≤ v)).length) := by
  have hthr := findFrequencyThreshold_replicate_zero n
  have hfilter : (List.replicate n (0 : ℕ)).filter
      (fun v => findFrequencyThreshold (List.replicate n 0) 0.7 ≤ v) =
      List.replicate n 0 := by
    rw [List.filter_eq_self]
    intro a _
    simp [hthr]
  have hpos : 0 < n := hn
  have hscale : melodyScale (List.replicate n 0) = 1 / 2 := by
    simp only [melodyScale, hfilter]
    rw [if_pos (by simpa using hpos)]
    rw [List.map_replicate]
    norm_num [List.sum_replicate]
  have hproc : processMelody (List.replicate n 0) left right =
      (left.map (fun x => x * (1 / 2)), right.map (fun x => x * (1 / 2))) := by
    simp only [processMelody, hfilter]
    rw [if_pos (by simpa using hpos)]
    rw [List.map_replicate]
    norm_num [List.sum_replicate]
  refine ⟨hthr, hfilter, hscale, hproc, fun data hne => ?_⟩
  have hmem := findFrequencyThreshold_mem data hne
  refine List.length_pos.mpr (fun hfil => ?_)
  have hall := (List.filter_eq_nil.mp hfil) _ hmem
  simp at hall

/-- Witness for C10 at `n = 3`, buffers `[1, -2]` and `[0, 4]`. -/
theorem melody_silence_scaling_witness :
    findFrequencyThreshold (List.replicate 3 0) 0.7 = 0 ∧
    (List.replicate 3 (0 : ℕ)).filter
      (fun v => findFrequencyThreshold (List.replicate 3 0) 0.7 ≤ v) =
      List.replicate 3 0 ∧
    melodyScale (List.replicate 3 0) = 1 / 2 ∧
    processMelody (List.replicate 3 0) [1, -2] [0, 4] =
      ([1, -2].map (fun x => x * (1 / 2)), [0, 4].map (fun x => x * (1 / 2))) ∧
    (∀ data : List ℕ, data ≠ [] →
      0 < (data.filter (fun v => findFrequencyThreshold data 0.7 ≤ v)).length) :=
  melody_silence_scaling 3 (by decide) [1, -2] [0, 4]


/-- Counterexample for C5 as stated.  First conjunct: the inclusive-range
helper `getAverageMagnitude` called with `startBin = endBin = 0` — a bin
range whose start equals its end, unchanged by clamping to the bounds of
the one-element array — returns the bin's normalized value `1`, not `0`.
Second conjunct: `getBandEnergy` on the band `min = -10, max = -5`
(start `≥` end after clamping to the array bounds, since both clamp to
`0`) loops over negative indices, reads `undefined` and returns NaN
(`none`), not `0`. -/
theorem bandEnergy_empty_range_cex :
    getAverageMagnitudeJ [(255 : ℚ)] 255 0 0 = some 1 ∧
    getBandEnergyJ [(255 : ℚ)] (-10) (-5) 1 = none := by
  constructor
  · norm_num [getAverageMagnitudeJ, binIdxs, jsRead, addJ,
      List.range_succ, List.range_zero]
  · norm_num [getBandEnergyJ, jsRead, addJ, List.range_succ, List.range_zero,
      show ((5 : ℤ)).toNat = 5 from rfl]

theorem foldl_addJ_skip (data : List ℚ) (l : List ℤ) (a : Option ℚ)
    (h : ∀ i ∈ l, ¬ i < (data.length : ℤ)) :
    l.foldl (fun acc i =>
      if i < (data.length : ℤ) then addJ acc (jsRead data i) else acc) a = a := by
  induction l generalizing a with
  | nil => rfl
  | cons x xs ih =>
      rw [List.foldl_cons, if_neg (h x (by simp))]
      exact ih a (fun i hi => h i (by simp [hi]))

/-- C5, amended: the empty-range guarantee holds for nonnegative range
starts.  For every input array, every `maxValue`, every amplitude and
every integer bin range from `s` to `e` with `0 ≤ s` whose in-bounds
index set is empty — `s` past the end of the array, or `e < s` —
`getAverageMagnitude` returns exactly `0`, and `getBandEnergy` on the
band `min = s, max = e` likewise returns exactly `0`; both are total
functions of the model, so neither throws.  As stated the claim fails
for `getAverageMagnitude` when `start = end` in bounds (inclusive
range, returns the bin value) and for `getBandEnergy` on negative
ranges (NaN). -/
theorem bandEnergy_empty_range (data : List ℚ) (maxValue amplitude : ℚ) (s e : ℤ)
    (hs : 0 ≤ s) (h : (data.length : ℤ) ≤ s ∨ e < s) :
    getAverageMagnitudeJ data maxValue s e = some 0 ∧
    getBandEnergyJ data (s : ℚ) (e : ℚ) amplitude = some 0 := by
  constructor
  · have hlen : (binIdxs data s e).length = 0 := by
      simp only [binIdxs, List.length_map, List.length_range]
      rcases min_cases e ((data.length : ℤ) - 1) with ⟨h1, _⟩ | ⟨h1, _⟩ <;> omega
    simp [getAverageMagnitudeJ, hlen]
  · simp only [getBandEnergyJ, Int.floor_intCast]
    rcases le_or_lt e s with he | he
    · rw [if_pos he]
    · rcases h with h | h
      · rw [if_neg (not_le.mpr he)]
        rw [foldl_addJ_skip data _ (some 0) ?_]
        · simp
        · intro i hi
          simp only [List.mem_map, List.mem_range] at hi
          obtain ⟨k, _, rfl⟩ := hi
          omega
      · omega

/-- Witness for the amended C5 at the array `[1]`, range from `5` to `2`. -/
theorem bandEnergy_empty_range_witness :
    getAverageMagnitudeJ [(1 : ℚ)] 255 5 2 = some 0 ∧
    getBandEnergyJ [(1 : ℚ)] ((5 : ℤ) : ℚ) ((2 : ℤ) : ℚ) 7 = some 0 :=
  bandEnergy_empty_range [(1 : ℚ)] 255 7 5 2 (by decide) (Or.inr (by decide))

/-- C8, amended: `connect` is idempotent for repeated calls with the
same source and destination — the second call re-runs the same wiring,
and because the audio graph keeps at most one connection per
`(src, dst, output, input)` quadruple the resulting graph state (edge
set and recorded source) is identical to a single call, so no signal
path is duplicated and any band read (`getBandData`, or any other
observation of the graph) yields identical `BandData`.  The mechanism
the claim names does not exist: `connect` performs no equality check
against the currently connected source (see the counterexample). -/
theorem connect_idempotent (st : GraphState) (source destination : WNode) :
    connect (connect st source destination) source destination =
      connect st source destination ∧
    ∀ observe : GraphState → BandData,
      observe (connect (connect st source destination) source destination) =
        observe (connect st source destination) := by
  have h : connect (connect st source destination) source destination =
      connect st source destination := by
    unfold connect
    simp [Finset.union_assoc]
  exact ⟨h, fun observe => congrArg observe h⟩

/-- Counterexample for C8's mechanism clause: re-connection of the same
source is not "detected via an equality check against the currently
connected source".  If it were, a second `connect` call with the
already-connected source would be skipped and could not alter the
graph; in the code the second call re-runs the wiring unconditionally,
so connecting the same source to a new destination changes the graph
(it gains the `merger → new destination` edge). -/
theorem connect_no_source_check_cex :
    connect (connect ⟨∅, none⟩ (.ext 0) (.ext 1)) (.ext 0) (.ext 2) ≠
      connect ⟨∅, none⟩ (.ext 0) (.ext 1) := by
  intro h
  have hmem := congrArg (fun g => (⟨.merger, .ext 2, 0, 0⟩ : WEdge) ∈ g.edges) h
  simp only [connect, connectEdges, eq_iff_iff] at hmem
  revert hmem
  decide

theorem getAverageMagnitude_eq_spec (data : List ℚ) (maxValue : ℚ) (s e : ℤ)
    (hs : 0 ≤ s) :
    getAverageMagnitude data maxValue s e = bandAverageSpec data maxValue s e := by
  simp only [getAverageMagnitude, bandAverageSpec, binIdxs, max_eq_left hs]
  rcases lt_or_le (min e ((data.length : ℤ) - 1)) s with hlt | hle
  · rw [if_pos (by simp only [List.length_map, List.length_range]; omega),
      if_pos hlt]
  · have hN : ((min e ((data.length : ℤ) - 1) - s + 1).toNat : ℤ) =
        min e ((data.length : ℤ) - 1) - s + 1 := Int.toNat_of_nonneg (by omega)
    have hNQ : (((min e ((data.length : ℤ) - 1) - s + 1).toNat : ℕ) : ℚ) =
        ((min e ((data.length : ℤ) - 1) : ℤ) : ℚ) - (s : ℚ) + 1 := by
      exact_mod_cast congrArg (fun z : ℤ => (z : ℚ)) hN
    rw [if_neg (by simp only [List.length_map, List.length_range]; omega),
      if_neg (not_lt.mpr hle)]
    simp only [List.length_map, List.length_range]
    rw [hNQ, List.map_map]
    rfl

/-- C3: for every input spectrum and `freqResolution = sampleRate /
fftSize` with positive sample rate and FFT size, the band-power
strategy's unsmoothed result `analyzeBandPower` coincides with the
reference definition `bandPowerSpec` built from the spec's words (mean
normalized magnitudes over the floor-converted Hz bands `<150`,
`150–2000`, `2000–8000` with treble clamped to the array bounds and
empty ranges yielding `0`; weighted, clamped `freqA`/`freqB`;
`complexity = (bass + mid + treble) / 3`). -/
theorem bandPower_refines_spec (config : FrequencyAnalysisConfig)
    (sampleRate fftSize maxValue : ℚ) (data : List ℚ)
    (hsr : 0 < sampleRate) (hfft : 0 < fftSize) :
    analyzeBandPower config (sampleRate / fftSize) maxValue data =
      bandPowerSpec config (sampleRate / fftSize) maxValue data := by
  have hres : 0 < sampleRate / fftSize := div_pos hsr hfft
  have h150 : (0 : ℤ) ≤ ⌊(150 : ℚ) / (sampleRate / fftSize)⌋ :=
    Int.floor_nonneg.mpr (le_of_lt (div_pos (by norm_num) hres))
  have h2000 : (0 : ℤ) ≤ ⌊(2000 : ℚ) / (sampleRate / fftSize)⌋ :=
    Int.floor_nonneg.mpr (le_of_lt (div_pos (by norm_num) hres))
  have hbass0 : ⌊(0 : ℚ) / (sampleRate / fftSize)⌋ = 0 := by
    rw [zero_div, Int.floor_zero]
  simp only [analyzeBandPower, bandPowerSpec, hbass0]
  rw [getAverageMagnitude_eq_spec data maxValue 0 _ le_rfl,
    getAverageMagnitude_eq_spec data maxValue _ _ h150,
    getAverageMagnitude_eq_spec data maxValue _ _ h2000]
  simp only [FrequencyResult.mk.injEq]
  refine ⟨?_, ?_, trivial⟩ <;> (congr 1; ring)

/-- Witness for C3 at `sampleRate = 44100`, `fftSize = 1024`, the
default band-power configuration and a two-bin spectrum. -/
theorem bandPower_refines_spec_witness :
    analyzeBandPower ⟨.bandPower, 3, 5, 1, 12, 1/10⟩ (44100 / 1024) 255 [10, 20] =
      bandPowerSpec ⟨.bandPower, 3, 5, 1, 12, 1/10⟩ (44100 / 1024) 255 [10, 20] :=
  bandPower_refines_spec ⟨.bandPower, 3, 5, 1, 12, 1/10⟩ 44100 1024 255 [10, 20]
    (by norm_num) (by norm_num)

theorem length_normalizerUpdate (smoothing : ℚ) (raw : List ℕ) (data : List ℚ) :
    (normalizerUpdate smoothing raw data).length = data.length := by
  simp [normalizerUpdate]

theorem getD_normalizerUpdate (smoothing : ℚ) (raw : List ℕ) (data : List ℚ)
    (i : ℕ) (hiN : i < data.length) (hiR : i < raw.length) :
    (normalizerUpdate smoothing raw data).getD i 0 =
      lerpQ (data.getD i 0) (normTarget data.length i (raw.getD i 0)) smoothing := by
  unfold normalizerUpdate
  rw [List.getD_eq_getElem _ _ (by simpa using hiN)]
  simp only [List.getElem_map, List.getElem_range]
  rw [if_pos hiR]

theorem length_iterate_normalizerUpdate (smoothing : ℚ) (raw : List ℕ)
    (data : List ℚ) (t : ℕ) :
    ((normalizerUpdate smoothing raw)^[t] data).length = data.length := by
  induction t with
  | zero => rfl
  | succ k ih => rw [Function.iterate_succ_apply', length_normalizerUpdate, ih]

theorem iterate_normalizerUpdate_rec (smoothing : ℚ) (raw : List ℕ)
    (data : List ℚ) (i : ℕ) (hiN : i < data.length) (hiR : i < raw.length) (t : ℕ) :
    ((normalizerUpdate smoothing raw)^[t + 1] data).getD i 0 =
      lerpQ (((normalizerUpdate smoothing raw)^[t] data).getD i 0)
        (normTarget data.length i (raw.getD i 0)) smoothing := by
  rw [Function.iterate_succ_apply',
    getD_normalizerUpdate _ _ _ i
      (by rw [length_iterate_normalizerUpdate]; exact hiN) hiR,
    length_iterate_normalizerUpdate]

theorem lerp_seq_closed_form (T s : ℚ) (x : ℕ → ℚ)
    (hrec : ∀ t, x (t + 1) = lerpQ (x t) T s) (t : ℕ) :
    T - x t = (T - x 0) * (1 - s) ^ t := by
  induction t with
  | zero => simp
  | succ k ih =>
      rw [hrec k, lerpQ, pow_succ]
      linear_combination (1 - s) * ih

theorem one_add_mul_le_inv_pow (s : ℚ) (hs0 : 0 ≤ s) (hs1 : s ≤ 1) (t : ℕ) :
    (1 + (t : ℚ) * s) * (1 - s) ^ t ≤ 1 := by
  induction t with
  | zero => norm_num
  | succ k ih =>
      have hq0 : (0 : ℚ) ≤ 1 - s := by linarith
      have hqp : (0 : ℚ) ≤ (1 - s) ^ k := pow_nonneg hq0 k
      have key : (1 + ((k : ℚ) + 1) * s) * (1 - s) ≤ 1 + (k : ℚ) * s := by
        nlinarith [sq_nonneg s, mul_nonneg (Nat.cast_nonneg (α := ℚ) k) (sq_nonneg s)]
      calc (1 + ((k + 1 : ℕ) : ℚ) * s) * (1 - s) ^ (k + 1)
          = ((1 + ((k : ℚ) + 1) * s) * (1 - s)) * (1 - s) ^ k := by push_cast; ring
        _ ≤ (1 + (k : ℚ) * s) * (1 - s) ^ k := mul_le_mul_of_nonneg_right key hqp
        _ ≤ 1 := ih

theorem lerp_seq_props (T s : ℚ) (hs0 : 0 < s) (hs1 : s < 1) (x : ℕ → ℚ)
    (hrec : ∀ t, x (t + 1) = lerpQ (x t) T s) :
    (∀ t, |T - x (t + 1)| ≤ |T - x t|) ∧
    (x 0 ≤ T → ∀ t, x t ≤ x (t + 1) ∧ x t ≤ T) ∧
    (T ≤ x 0 → ∀ t, x (t + 1) ≤ x t ∧ T ≤ x t) ∧
    (∀ ε : ℚ, 0 < ε → ∃ B : ℕ, ∀ t, B ≤ t → |T - x t| ≤ ε) := by
  have hcf := lerp_seq_closed_form T s x hrec
  have hq0 : (0 : ℚ) ≤ 1 - s := by linarith
  have hq1 : (1 - s : ℚ) ≤ 1 := by linarith
  have habs : ∀ t, |T - x t| = |T - x 0| * (1 - s) ^ t := by
    intro t
    rw [hcf t, abs_mul, abs_of_nonneg (pow_nonneg hq0 t)]
  refine ⟨?_, ?_, ?_, ?_⟩
  · intro t
    rw [habs t, habs (t + 1)]
    exact mul_le_mul_of_nonneg_left
      (pow_le_pow_of_le_one hq0 hq1 (Nat.le_succ t)) (abs_nonneg _)
  · intro hx0 t
    have hge : 0 ≤ T - x t := by
      rw [hcf t]
      exact mul_nonneg (by linarith) (pow_nonneg hq0 t)
    constructor
    · rw [hrec t, lerpQ]
      nlinarith
    · linarith
  · intro hx0 t
    have hle : T - x t ≤ 0 := by
      rw [hcf t]
      exact mul_nonpos_of_nonpos_of_nonneg (by linarith) (pow_nonneg hq0 t)
    constructor
    · rw [hrec t, lerpQ]
      nlinarith
    · linarith
  · intro ε hε
    refine ⟨(⌈|T - x 0| / (ε * s)⌉).toNat, fun t ht => ?_⟩
    rw [habs t]
    have hD0 : 0 ≤ |T - x 0| := abs_nonneg _
    have hnn : (0 : ℤ) ≤ ⌈|T - x 0| / (ε * s)⌉ :=
      Int.ceil_nonneg (div_nonneg hD0 (le_of_lt (mul_pos hε hs0)))
    have h3 : |T - x 0| / (ε * s) ≤ ((⌈|T - x 0| / (ε * s)⌉.toNat : ℕ) : ℚ) := by
      have hcast : ((⌈|T - x 0| / (ε * s)⌉.toNat : ℕ) : ℚ) =
          ((⌈|T - x 0| / (ε * s)⌉ : ℤ) : ℚ) := by
        exact_mod_cast congrArg (fun z : ℤ => (z : ℚ)) (Int.toNat_of_nonneg hnn)
      rw [hcast]
      exact Int.le_ceil _
    have h4 : |T - x 0| ≤ ((⌈|T - x 0| / (ε * s)⌉.toNat : ℕ) : ℚ) * (ε * s) :=
      (div_le_iff (mul_pos hε hs0)).mp h3
    have h1 : (1 - s) ^ t ≤ (1 - s) ^ (⌈|T - x 0| / (ε * s)⌉).toNat :=
      pow_le_pow_of_le_one hq0 hq1 ht
    have h2 := one_add_mul_le_inv_pow s (le_of_lt hs0) (le_of_lt hs1)
      (⌈|T - x 0| / (ε * s)⌉).toNat
    have hBq : (0 : ℚ) ≤ ((⌈|T - x 0| / (ε * s)⌉.toNat : ℕ) : ℚ) := Nat.cast_nonneg _
    have hpowB : (0 : ℚ) ≤ (1 - s) ^ (⌈|T - x 0| / (ε * s)⌉).toNat :=
      pow_nonneg hq0 _
    nlinarith [mul_le_mul_of_nonneg_left h1 hD0,
      mul_le_mul_of_nonneg_left h2 (le_of_lt hε),
      mul_le_mul_of_nonneg_right h4 hpowB,
      mul_nonneg (mul_nonneg (le_of_lt hε) hBq) (le_of_lt hs0)]

/-- C4: feeding a constant raw byte frame repeatedly to the Normalizer's
`update`, each bin `i` (present in both the state and the frame) follows
the recurrence `x (t+1) = lerp (x t) T smoothing` toward the target
`T = noiseGate (raw[i] / 255) * (1 + (i / N) * 2)` (gate: quadratic
falloff below `0.15`; boost strength `2.0`): the distance to the target
never grows, the value moves monotonically toward `T` without ever
overshooting past it or oscillating, and it converges within a bounded
number of frames determined by the smoothing factor — for every
`ε > 0` a frame count `B` exists past which the distance stays `≤ ε`. -/
theorem normalizer_monotone_convergence (smoothing : ℚ) (raw : List ℕ)
    (data : List ℚ) (i : ℕ) (hs0 : 0 < smoothing) (hs1 : smoothing < 1)
    (hiN : i < data.length) (hiR : i < raw.length)
    (x : ℕ → ℚ)
    (hx : x = fun t => ((normalizerUpdate smoothing raw)^[t] data).getD i 0)
    (T : ℚ) (hT : T = normTarget data.length i (raw.getD i 0)) :
    (∀ t, x (t + 1) = lerpQ (x t) T smoothing) ∧
    (∀ t, |T - x (t + 1)| ≤ |T - x t|) ∧
    (x 0 ≤ T → ∀ t, x t ≤ x (t + 1) ∧ x t ≤ T) ∧
    (T ≤ x 0 → ∀ t, x (t + 1) ≤ x t ∧ T ≤ x t) ∧
    (∀ ε : ℚ, 0 < ε → ∃ B : ℕ, ∀ t, B ≤ t → |T - x t| ≤ ε) := by
  subst hx hT
  have hrec : ∀ t, ((normalizerUpdate smoothing raw)^[t + 1] data).getD i 0 =
      lerpQ (((normalizerUpdate smoothing raw)^[t] data).getD i 0)
        (normTarget data.length i (raw.getD i 0)) smoothing :=
    iterate_normalizerUpdate_rec smoothing raw data i hiN hiR
  have hprops := lerp_seq_props (normTarget data.length i (raw.getD i 0))
    smoothing hs0 hs1
    (fun t => ((normalizerUpdate smoothing raw)^[t] data).getD i 0) hrec
  exact ⟨hrec, hprops.1, hprops.2.1, hprops.2.2.1, hprops.2.2.2⟩

/-- Witness for C4 at `smoothing = 1/5`, frame `[255, 0]`, initial state
`[0, 0]`, bin `0`. -/
theorem normalizer_monotone_convergence_witness :
    (∀ t, (fun t => ((normalizerUpdate (1 / 5) [255, 0])^[t] [0, 0]).getD 0 0) (t + 1) =
      lerpQ ((fun t => ((normalizerUpdate (1 / 5) [255, 0])^[t] [0, 0]).getD 0 0) t)
        (normTarget 2 0 255) (1 / 5)) ∧
    (∀ t, |normTarget 2 0 255 -
        (fun t => ((normalizerUpdate (1 / 5) [255, 0])^[t] [0, 0]).getD 0 0) (t + 1)| ≤
      |normTarget 2 0 255 -
        (fun t => ((normalizerUpdate (1 / 5) [255, 0])^[t] [0, 0]).getD 0 0) t|) ∧
    ((fun t => ((normalizerUpdate (1 / 5) [255, 0])^[t] [0, 0]).getD 0 0) 0 ≤
        normTarget 2 0 255 →
      ∀ t, (fun t => ((normalizerUpdate (1 / 5) [255, 0])^[t] [0, 0]).getD 0 0) t ≤
          (fun t => ((normalizerUpdate (1 / 5) [255, 0])^[t] [0, 0]).getD 0 0) (t + 1) ∧
        (fun t => ((normalizerUpdate (1 / 5) [255, 0])^[t] [0, 0]).getD 0 0) t ≤
          normTarget 2 0 255) ∧
    (normTarget 2 0 255 ≤
        (fun t => ((normalizerUpdate (1 / 5) [255, 0])^[t] [0, 0]).getD 0 0) 0 →
      ∀ t, (fun t => ((normalizerUpdate (1 / 5) [255, 0])^[t] [0, 0]).getD 0 0) (t + 1) ≤
          (fun t => ((normalizerUpdate (1 / 5) [255, 0])^[t] [0, 0]).getD 0 0) t ∧
        normTarget 2 0 255 ≤
          (fun t => ((normalizerUpdate (1 / 5) [255, 0])^[t] [0, 0]).getD 0 0) t) ∧
    (∀ ε : ℚ, 0 < ε → ∃ B : ℕ, ∀ t, B ≤ t →
      |normTarget 2 0 255 -
        (fun t => ((normalizerUpdate (1 / 5) [255, 0])^[t] [0, 0]).getD 0 0) t| ≤ ε) :=
  normalizer_monotone_convergence (1 / 5) [255, 0] [0, 0] 0
    (by norm_num) (by norm_num) (by norm_num) (by norm_num)
    (fun t => ((normalizerUpdate (1 / 5) [255, 0])^[t] [0, 0]).getD 0 0) rfl
    (normTarget 2 0 255) (by norm_num)

theorem clampQ_mem (lo hi x : ℚ) (h : lo ≤ hi) :
    lo ≤ clampQ lo hi x ∧ clampQ lo hi x ≤ hi := by
  unfold clampQ
  exact ⟨le_max_left lo _, max_le h (min_le_left hi x)⟩

theorem lerpQ_mem (lo hi a b t : ℚ) (ha1 : lo ≤ a) (ha2 : a ≤ hi)
    (hb1 : lo ≤ b) (hb2 : b ≤ hi) (ht0 : 0 ≤ t) (ht1 : t ≤ 1) :
    lo ≤ lerpQ a b t ∧ lerpQ a b t ≤ hi := by
  unfold lerpQ
  constructor <;> nlinarith

theorem mapFrequencyToParameter_mem (lg : ℚ → ℚ) (config : FrequencyAnalysisConfig)
    (hz : ℚ) (h : config.minFreq ≤ config.maxFreq)
    (hb1 : config.minFreq ≤ config.baseFrequency)
    (hb2 : config.baseFrequency ≤ config.maxFreq) :
    config.minFreq ≤ mapFrequencyToParameter lg config hz ∧
    mapFrequencyToParameter lg config hz ≤ config.maxFreq := by
  unfold mapFrequencyToParameter
  split
  · exact ⟨hb1, hb2⟩
  · exact clampQ_mem _ _ _ h

theorem dispatchMethod_mem (lg : ℚ → ℚ) (config : FrequencyAnalysisConfig)
    (freqResolution maxValue : ℚ) (data : List ℚ)
    (h : config.minFreq ≤ config.maxFreq)
    (hb1 : config.minFreq ≤ config.baseFrequency)
    (hb2 : config.baseFrequency ≤ config.maxFreq) :
    (config.minFreq ≤ (dispatchMethod lg config freqResolution maxValue data).freqA ∧
      (dispatchMethod lg config freqResolution maxValue data).freqA ≤ config.maxFreq) ∧
    (config.minFreq ≤ (dispatchMethod lg config freqResolution maxValue data).freqB ∧
      (dispatchMethod lg config freqResolution maxValue data).freqB ≤ config.maxFreq) := by
  unfold dispatchMethod
  cases hm : config.method
  · exact ⟨mapFrequencyToParameter_mem lg config _ h hb1 hb2,
      mapFrequencyToParameter_mem lg config _ h hb1 hb2⟩
  · exact ⟨mapFrequencyToParameter_mem lg config _ h hb1 hb2,
      mapFrequencyToParameter_mem lg config _ h hb1 hb2⟩
  · exact ⟨clampQ_mem _ _ _ h, clampQ_mem _ _ _ h⟩

theorem runAnalyzer_cons (lg : ℚ → ℚ) (config : FrequencyAnalysisConfig)
    (freqResolution maxValue : ℚ) (st : AnalyzerState) (d : List ℚ)
    (frames : List (List ℚ)) :
    runAnalyzer lg config freqResolution maxValue st (d :: frames) =
      ((analyze lg config freqResolution maxValue st d).1 ::
        (runAnalyzer lg config freqResolution maxValue
          (analyze lg config freqResolution maxValue st d).2 frames).1,
        (runAnalyzer lg config freqResolution maxValue
          (analyze lg config freqResolution maxValue st d).2 frames).2) := rfl

theorem runAnalyzer_mem_aux (lg : ℚ → ℚ) (config : FrequencyAnalysisConfig)
    (freqResolution maxValue : ℚ)
    (h : config.minFreq ≤ config.maxFreq)
    (hb1 : config.minFreq ≤ config.baseFrequency)
    (hb2 : config.baseFrequency ≤ config.maxFreq)
    (hs0 : 0 ≤ config.smoothing) (hs1 : config.smoothing ≤ 1) :
    ∀ (frames : List (List ℚ)) (st : AnalyzerState),
      config.minFreq ≤ st.prevFreqA → st.prevFreqA ≤ config.maxFreq →
      config.minFreq ≤ st.prevFreqB → st.prevFreqB ≤ config.maxFreq →
      ∀ r ∈ (runAnalyzer lg config freqResolution maxValue st frames).1,
        config.minFreq ≤ r.freqA ∧ r.freqA ≤ config.maxFreq ∧
        config.minFreq ≤ r.freqB ∧ r.freqB ≤ config.maxFreq := by
  intro frames
  induction frames with
  | nil =>
      intro st _ _ _ _ r hr
      simp [runAnalyzer] at hr
  | cons d fs ih =>
      intro st hA1 hA2 hB1 hB2 r hr
      have hdm := dispatchMethod_mem lg config freqResolution maxValue d h hb1 hb2
      have hfA := lerpQ_mem config.minFreq config.maxFreq st.prevFreqA
        (dispatchMethod lg config freqResolution maxValue d).freqA config.smoothing
        hA1 hA2 hdm.1.1 hdm.1.2 hs0 hs1
      have hfB := lerpQ_mem config.minFreq config.maxFreq st.prevFreqB
        (dispatchMethod lg config freqResolution maxValue d).freqB config.smoothing
        hB1 hB2 hdm.2.1 hdm.2.2 hs0 hs1
      rw [runAnalyzer_cons] at hr
      rcases List.mem_cons.mp hr with hr | hr
      · subst hr
        exact ⟨hfA.1, hfA.2, hfB.1, hfB.2⟩
      · exact ih (analyze lg config freqResolution maxValue st d).2
          hfA.1 hfA.2 hfB.1 hfB.2 r hr

/-- C1, amended: the range-clamp invariant holds provided the
configuration's `baseFrequency` also lies in `[minFreq, maxFreq]` (the
constructor seeds the smoothing state with `baseFrequency` and the
Hz→parameter mapping returns `baseFrequency` unclamped, so a base
frequency outside the range escapes it — see the counterexample).  For
every such valid configuration (`smoothing ∈ (0,1)`,
`minFreq ≤ maxFreq`, `baseFrequency ∈ [minFreq, maxFreq]`), every
frequency resolution, every `maxValue`, every abstract logarithm and
every call sequence of spectra, each `FrequencyResult` produced by
`analyze` — for each of the three strategies, including the silence
fallback and the cross-frame smoothing lerp seeded with
`baseFrequency` — has `freqA` and `freqB` in `[minFreq, maxFreq]`
inclusive. -/
theorem analyze_freq_range (lg : ℚ → ℚ) (config : FrequencyAnalysisConfig)
    (freqResolution maxValue : ℚ) (frames : List (List ℚ))
    (hs0 : 0 < config.smoothing) (hs1 : config.smoothing < 1)
    (h : config.minFreq ≤ config.maxFreq)
    (hb1 : config.minFreq ≤ config.baseFrequency)
    (hb2 : config.baseFrequency ≤ config.maxFreq) :
    ∀ r ∈ (runAnalyzer lg config freqResolution maxValue
        (initState config) frames).1,
      config.minFreq ≤ r.freqA ∧ r.freqA ≤ config.maxFreq ∧
      config.minFreq ≤ r.freqB ∧ r.freqB ≤ config.maxFreq :=
  runAnalyzer_mem_aux lg config freqResolution maxValue h hb1 hb2
    (le_of_lt hs0) (le_of_lt hs1) frames (initState config) hb1 hb2 hb1 hb2

/-- Counterexample for C1 as stated: the configuration
`method = bandPower, baseFrequency = 100, multiplier = 0, minFreq = 1,
maxFreq = 12, smoothing = 1/2` is valid in the claim's sense
(`smoothing ∈ (0,1)`, `minFreq ≤ maxFreq`), yet the very first
`analyze` call on the spectrum `[0]` returns
`freqA = lerp(100, clamp(100) = 12, 1/2) = 56 > maxFreq = 12`, because
the smoothing state is seeded with the out-of-range `baseFrequency`. -/
theorem analyze_freq_range_cex :
    (0 : ℚ) < 1 / 2 ∧ (1 / 2 : ℚ) < 1 ∧ (1 : ℚ) ≤ 12 ∧
    (analyze (fun _ => 0) ⟨.bandPower, 100, 0, 1, 12, 1 / 2⟩ 1 255
        (initState ⟨.bandPower, 100, 0, 1, 12, 1 / 2⟩) [0]).1.freqA = 56 ∧
    ¬ ((56 : ℚ) ≤ 12) := by
  refine ⟨by norm_num, by norm_num, by norm_num, ?_, by norm_num⟩
  norm_num [analyze, dispatchMethod, analyzeBandPower, getAverageMagnitude,
    binIdxs, readQ, clampQ, lerpQ, initState, List.range_succ]

/-- Witness for the amended C1: default-like band-power configuration,
the single-frame call sequence `[[0]]`, checked on its one result. -/
theorem analyze_freq_range_witness :
    (1 : ℚ) ≤ (analyze (fun q => q) ⟨.bandPower, 3, 5, 1, 12, 1 / 10⟩ 1 255
        (initState ⟨.bandPower, 3, 5, 1, 12, 1 / 10⟩) [0]).1.freqA ∧
    (analyze (fun q => q) ⟨.bandPower, 3, 5, 1, 12, 1 / 10⟩ 1 255
        (initState ⟨.bandPower, 3, 5, 1, 12, 1 / 10⟩) [0]).1.freqA ≤ 12 ∧
    (1 : ℚ) ≤ (analyze (fun q => q) ⟨.bandPower, 3, 5, 1, 12, 1 / 10⟩ 1 255
        (initState ⟨.bandPower, 3, 5, 1, 12, 1 / 10⟩) [0]).1.freqB ∧
    (analyze (fun q => q) ⟨.bandPower, 3, 5, 1, 12, 1 / 10⟩ 1 255
        (initState ⟨.bandPower, 3, 5, 1, 12, 1 / 10⟩) [0]).1.freqB ≤ 12 :=
  analyze_freq_range (fun q => q) ⟨.bandPower, 3, 5, 1, 12, 1 / 10⟩ 1 255
    [[0]] (by norm_num) (by norm_num) (by norm_num) (by norm_num) (by norm_num)
    (analyze (fun q => q) ⟨.bandPower, 3, 5, 1, 12, 1 / 10⟩ 1 255
      (initState ⟨.bandPower, 3, 5, 1, 12, 1 / 10⟩) [0]).1
    (List.mem_singleton.mpr rfl)

theorem jsRead_eq_readQ (data : List ℚ) (i : ℤ) (h0 : 0 ≤ i)
    (h1 : i < (data.length : ℤ)) :
    jsRead data i = some (readQ data i) := by
  unfold jsRead readQ
  rw [dif_pos ⟨h0, h1⟩, if_pos h0]
  congr 1
  rw [List.getD_eq_getElem _ _ (by omega), List.get_eq_getElem]

theorem foldl_addJ_inbounds (data : List ℚ) (l : List ℤ)
    (h : ∀ i ∈ l, 0 ≤ i ∧ i < (data.length : ℤ)) (a : ℚ) :
    l.foldl (fun acc i => addJ acc (jsRead data i)) (some a) =
      some (a + (l.map (readQ data)).sum) := by
  induction l generalizing a with
  | nil => simp
  | cons x xs ih =>
      rw [List.foldl_cons,
        jsRead_eq_readQ data x (h x (by simp)).1 (h x (by simp)).2]
      show xs.foldl _ (some (a + readQ data x)) = _
      rw [ih (fun i hi => h i (by simp [hi]))]
      simp [add_assoc]

theorem getAverageMagnitudeJ_eq (data : List ℚ) (maxValue : ℚ) (s : ℤ)
    (hs : 0 ≤ s) (e : ℤ) :
    getAverageMagnitudeJ data maxValue s e =
      some (getAverageMagnitude data maxValue s e) := by
  simp only [getAverageMagnitudeJ, getAverageMagnitude]
  by_cases hlen : (binIdxs data s e).length = 0
  · simp [hlen]
  · have hmem : ∀ i ∈ binIdxs data s e, 0 ≤ i ∧ i < (data.length : ℤ) := by
      intro i hi
      simp only [binIdxs, List.mem_map, List.mem_range] at hi
      obtain ⟨k, hk, rfl⟩ := hi
      omega
    rw [if_neg hlen, if_neg hlen, foldl_addJ_inbounds data _ hmem 0]
    simp

theorem mapFrequencyToParameterJ_eq (lg : ℚ → ℚ) (config : FrequencyAnalysisConfig)
    (hlg : lg 4186 - lg (55 / 2) ≠ 0) (hz : ℚ) :
    mapFrequencyToParameterJ lg config hz =
      some (mapFrequencyToParameter lg config hz) := by
  unfold mapFrequencyToParameterJ mapFrequencyToParameter
  split
  · rfl
  · simp [jsDiv, hlg]

theorem analyzeDominantPitchJ_eq (lg : ℚ → ℚ) (config : FrequencyAnalysisConfig)
    (freqResolution maxValue : ℚ) (data : List ℚ)
    (hlg : lg 4186 - lg (55 / 2) ≠ 0) (hmv : maxValue ≠ 0) :
    analyzeDominantPitchJ lg config freqResolution maxValue data =
      some (analyzeDominantPitch lg config freqResolution maxValue data) := by
  simp only [analyzeDominantPitchJ, analyzeDominantPitch,
    mapFrequencyToParameterJ_eq lg config hlg, jsDiv, if_neg hmv]
  rfl

theorem analyzeSpectralCentroidJ_eq (lg : ℚ → ℚ) (config : FrequencyAnalysisConfig)
    (freqResolution maxValue : ℚ) (data : List ℚ)
    (hlg : lg 4186 - lg (55 / 2) ≠ 0) (hmv : maxValue ≠ 0)
    (hlen : data.length ≠ 0) :
    analyzeSpectralCentroidJ lg config freqResolution maxValue data =
      some (analyzeSpectralCentroid lg config freqResolution maxValue data) := by
  have hlenQ : ((data.length : ℕ) : ℚ) ≠ 0 := Nat.cast_ne_zero.mpr hlen
  unfold analyzeSpectralCentroidJ analyzeSpectralCentroid
  by_cases h1 : 0 < magnitudeSum data ((List.range data.length).drop 1)
  · by_cases h2 : 0 < magnitudeSum data
        ((List.range data.length).drop (data.length / 2))
    · simp only [if_pos h1, if_pos h2, jsDiv, if_neg (ne_of_gt h1),
        if_neg (ne_of_gt h2), if_neg hlenQ, if_neg hmv,
        mapFrequencyToParameterJ_eq lg config hlg]
      rfl
    · simp only [if_pos h1, if_neg h2, jsDiv, if_neg (ne_of_gt h1),
        if_neg hlenQ, if_neg hmv,
        mapFrequencyToParameterJ_eq lg config hlg]
      rfl
  · by_cases h2 : 0 < magnitudeSum data
        ((List.range data.length).drop (data.length / 2))
    · simp only [if_neg h1, if_pos h2, jsDiv, if_neg (ne_of_gt h2),
        if_neg hlenQ, if_neg hmv,
        mapFrequencyToParameterJ_eq lg config hlg]
      rfl
    · simp only [if_neg h1, if_neg h2, jsDiv, if_neg hlenQ, if_neg hmv,
        mapFrequencyToParameterJ_eq lg config hlg]
      rfl

theorem analyzeBandPowerJ_eq (config : FrequencyAnalysisConfig)
    (freqResolution maxValue : ℚ) (data : List ℚ) (hres : 0 < freqResolution) :
    analyzeBandPowerJ config freqResolution maxValue data =
      some (analyzeBandPower config freqResolution maxValue data) := by
  have hne : freqResolution ≠ 0 := ne_of_gt hres
  have h0 : (0 : ℤ) ≤ ⌊(0 : ℚ) / freqResolution⌋ := by
    rw [zero_div, Int.floor_zero]
  have h150 : (0 : ℤ) ≤ ⌊(150 : ℚ) / freqResolution⌋ :=
    Int.floor_nonneg.mpr (le_of_lt (div_pos (by norm_num) hres))
  have h2000 : (0 : ℤ) ≤ ⌊(2000 : ℚ) / freqResolution⌋ :=
    Int.floor_nonneg.mpr (le_of_lt (div_pos (by norm_num) hres))
  have e0 := getAverageMagnitudeJ_eq data maxValue 0 le_rfl
  have e1 := getAverageMagnitudeJ_eq data maxValue ⌊(0 : ℚ) / freqResolution⌋ h0
  have e2 := getAverageMagnitudeJ_eq data maxValue ⌊(150 : ℚ) / freqResolution⌋ h150
  have e3 := getAverageMagnitudeJ_eq data maxValue ⌊(2000 : ℚ) / freqResolution⌋ h2000
  simp [analyzeBandPowerJ, analyzeBandPower, jsDiv, hne, e0, e1, e2, e3]

theorem dispatchMethodJ_eq (lg : ℚ → ℚ) (config : FrequencyAnalysisConfig)
    (freqResolution maxValue : ℚ) (data : List ℚ)
    (hres : 0 < freqResolution) (hmv : maxValue ≠ 0)
    (hlg : lg 4186 - lg (55 / 2) ≠ 0) (hlen : data.length ≠ 0) :
    dispatchMethodJ lg config freqResolution maxValue data =
      some (dispatchMethod lg config freqResolution maxValue data) := by
  unfold dispatchMethodJ dispatchMethod
  cases hm : config.method
  · exact analyzeDominantPitchJ_eq lg config freqResolution maxValue data hlg hmv
  · exact analyzeSpectralCentroidJ_eq lg config freqResolution maxValue data
      hlg hmv hlen
  · exact analyzeBandPowerJ_eq config freqResolution maxValue data hres

theorem analyzeJ_eq (lg : ℚ → ℚ) (config : FrequencyAnalysisConfig)
    (freqResolution maxValue : ℚ) (st : AnalyzerState) (data : List ℚ)
    (hres : 0 < freqResolution) (hmv : maxValue ≠ 0)
    (hlg : lg 4186 - lg (55 / 2) ≠ 0) (hlen : data.length ≠ 0) :
    analyzeJ lg config freqResolution maxValue st data =
      some (analyze lg config freqResolution maxValue st data) := by
  unfold analyzeJ analyze
  rw [dispatchMethodJ_eq lg config freqResolution maxValue data hres hmv hlg hlen]
  rfl

/-- C2: for every configuration (any of the three strategies), every
positive frequency resolution, every positive `maxValue` (255 for byte
spectra, 1 for float spectra), every abstract logarithm whose values at
the two constant clamp endpoints differ (true of the real `Math.log`),
every starting smoothing state and every call sequence of non-empty
spectra, the NaN-aware evaluation of the whole `analyze` call sequence
succeeds and coincides with the total rational model: no call ever
produces NaN or ±Infinity in `freqA`, `freqB` or `complexity` — every
division-by-zero and empty-range situation inside the strategies
degrades to `0`, to `baseFrequency`, or to the previous smoothed
value. -/
theorem analyze_no_nan (lg : ℚ → ℚ) (config : FrequencyAnalysisConfig)
    (freqResolution maxValue : ℚ)
    (hres : 0 < freqResolution) (hmv : 0 < maxValue)
    (hlg : lg 4186 - lg (55 / 2) ≠ 0) :
    ∀ (frames : List (List ℚ)) (st : AnalyzerState),
      (∀ f ∈ frames, f ≠ []) →
      runAnalyzerJ lg config freqResolution maxValue st frames =
        some (runAnalyzer lg config freqResolution maxValue st frames) := by
  intro frames
  induction frames with
  | nil =>
      intro st _
      rfl
  | cons d fs ih =>
      intro st hframes
      have hd : d.length ≠ 0 := fun hc =>
        hframes d (by simp) (List.length_eq_zero.mp hc)
      show (analyzeJ lg config freqResolution maxValue st d).bind _ = _
      rw [analyzeJ_eq lg config freqResolution maxValue st d hres
        (ne_of_gt hmv) hlg hd, Option.some_bind,
        ih (analyze lg config freqResolution maxValue st d).2
          (fun f hf => hframes f (by simp [hf])),
        Option.map_some', runAnalyzer_cons]

/-- Witness for C2: spectral-centroid configuration, identity logarithm,
two-frame call sequence. -/
theorem analyze_no_nan_witness :
    runAnalyzerJ (fun q => q) ⟨.spectralCentroid, 3, 5, 1, 12, 1 / 10⟩ 1 255
        ⟨3, 3, 0⟩ [[1], [2, 3]] =
      some (runAnalyzer (fun q => q) ⟨.spectralCentroid, 3, 5, 1, 12, 1 / 10⟩ 1 255
        ⟨3, 3, 0⟩ [[1], [2, 3]]) :=
  analyze_no_nan (fun q => q) ⟨.spectralCentroid, 3, 5, 1, 12, 1 / 10⟩ 1 255
    (by norm_num) (by norm_num) (by norm_num) [[1], [2, 3]] ⟨3, 3, 0⟩
    (by simp)
